import Mathlib

/-!
Shallow embedding of the concurrent-analysis and live-update core of the
DemoSportsColombia backend, together with proofs of its specified
properties.

Embedded components and their sources:
* `AnalysisCacheService` (the BoundedKeyedCache of the spec) from
  `app/services/cache_service.py`;
* `CacheManager`, the two `TTLCache` definitions and `EventsCache` from
  `app/core/cache.py`;
* `FootballAPIService.diff_new_events` and `normalize_event` from
  `app/services/football_service.py`;
* `StreamService.stream_match_events` and its helpers from
  `app/services/stream_service.py`;
* `AnalysisService.analyze_complete` and the three detector wrappers from
  `app/services/analysis_service.py`;
* the `/analyze` endpoint slot discipline from `app/backend_api7.py`.

Python ordered dictionaries are embedded as association lists in insertion
order with unique keys; wall-clock timestamps are explicit integer
parameters; operations that can raise are embedded in `Option`/`Except`.
-/

namespace DemoSports

universe u

variable {K : Type} [DecidableEq K] {V : Type u}

/-- Lookup in an association list embedding a Python dict read
(`d.get(k)` / `d[k]`): the value of the first entry whose key equals
the requested one. -/
def lookupKey (k : K) : List (K × V) → Option V
  | [] => none
  | p :: ps => if p.1 = k then some p.2 else lookupKey k ps

/-- Removal of the entry of a key from an association list, embedding
Python `d.pop(k, None)` / `OrderedDict` deletion.  Removes the first
(and, under the key-uniqueness invariant, only) entry with that key. -/
def eraseKey (k : K) : List (K × V) → List (K × V)
  | [] => []
  | p :: ps => if p.1 = k then ps else p :: eraseKey k ps

/-- Plain dict assignment `d[k] = v`: replace the value in place if the
key is present, append a fresh entry otherwise. -/
def setAssoc (k : K) (v : V) : List (K × V) → List (K × V)
  | [] => [(k, v)]
  | p :: ps => if p.1 = k then (k, v) :: ps else p :: setAssoc k v ps

/-- State of `AnalysisCacheService` (`app/services/cache_service.py`):
the `OrderedDict` of results in insertion/update order plus the explicit
insertion-order queue and the capacity. -/
structure AnalysisCacheService (V : Type u) where
  maxSize : Nat
  cache : List (String × V)
  queue : List String

namespace AnalysisCacheService

/-- Constructor `AnalysisCacheService.__init__`: empty structures. -/
def init (maxSize : Nat) : AnalysisCacheService V :=
  ⟨maxSize, [], []⟩

/-- The `get` of `AnalysisCacheService`: a plain dict read
(`self._cache.get(match_time)`); no structure is mutated by reads. -/
def get (c : AnalysisCacheService V) (matchTime : String) : Option V :=
  lookupKey matchTime c.cache

/-- The `set` of `AnalysisCacheService`.  Existing key: value replaced,
entry moved to the end (`move_to_end`) and the queue position refreshed
(`remove` then `append`).  New key at capacity: `self._queue.pop(0)` pops
the oldest-written key and it is removed from the dict, then the new
entry is appended.  `pop(0)` on an empty queue raises `IndexError`, hence
the `Option`; with a positive capacity that branch is unreachable. -/
def set (c : AnalysisCacheService V) (matchTime : String) (result : V) :
    Option (AnalysisCacheService V) :=
  if (lookupKey matchTime c.cache).isSome then
    some { c with
      cache := eraseKey matchTime c.cache ++ [(matchTime, result)],
      queue := c.queue.erase matchTime ++ [matchTime] }
  else if c.maxSize ≤ c.cache.length then
    match c.queue with
    | [] => none
    | oldest :: rest =>
      some { c with
        cache := eraseKey oldest c.cache ++ [(matchTime, result)],
        queue := rest ++ [matchTime] }
  else
    some { c with
      cache := c.cache ++ [(matchTime, result)],
      queue := c.queue ++ [matchTime] }

/-- The `exists` check of `AnalysisCacheService` (`match_time in self._cache`). -/
def existsTime (c : AnalysisCacheService V) (matchTime : String) : Bool :=
  (lookupKey matchTime c.cache).isSome

/-- The `clear` of `AnalysisCacheService`. -/
def clear (c : AnalysisCacheService V) : AnalysisCacheService V :=
  { c with cache := [], queue := [] }

/-- The `get_all_times` of `AnalysisCacheService`: a copy of the queue. -/
def get_all_times (c : AnalysisCacheService V) : List String :=
  c.queue

/-- The `remove` of `AnalysisCacheService`: deletes from both structures
if present and reports whether anything was removed. -/
def remove (c : AnalysisCacheService V) (matchTime : String) :
    Bool × AnalysisCacheService V :=
  if (lookupKey matchTime c.cache).isSome then
    (true, { c with
      cache := eraseKey matchTime c.cache,
      queue := c.queue.erase matchTime })
  else
    (false, c)

/-- Statistics record returned by `get_stats`. -/
structure CacheStats where
  size : Nat
  maxSize : Nat
  usagePercent : ℚ
  timesCached : List String
  oldestTime : Option String
  newestTime : Option String
  deriving Repr

/-- The `get_stats` of `AnalysisCacheService`: sizes, usage percentage and
the queue with its first (oldest-written) and last (newest-written) key. -/
def get_stats (c : AnalysisCacheService V) : CacheStats :=
  { size := c.cache.length
    maxSize := c.maxSize
    usagePercent := if 0 < c.maxSize then (c.cache.length : ℚ) / (c.maxSize : ℚ) * 100 else 0
    timesCached := c.queue
    oldestTime := c.queue.head?
    newestTime := c.queue.getLast? }

end AnalysisCacheService

/-- An observable operation on the analysis cache: a write or a read. -/
inductive CacheOp (V : Type u) where
  | set (matchTime : String) (result : V)
  | get (matchTime : String)

/-- Effect of one operation on the cache state.  A `get` is a pure dict
read in the source and leaves the state untouched; a `set` mutates. -/
def applyOp (c : AnalysisCacheService V) : CacheOp V → Option (AnalysisCacheService V)
  | .set k v => c.set k v
  | .get _ => some c

/-- Running a sequence of cache operations from a starting state. -/
def runOps (c : AnalysisCacheService V) : List (CacheOp V) → Option (AnalysisCacheService V)
  | [] => some c
  | op :: ops =>
    match applyOp c op with
    | none => none
    | some c2 => runOps c2 ops

/-- The write subsequence of an operation sequence. -/
def setsOf : List (CacheOp V) → List (String × V)
  | [] => []
  | .set k v :: ops => (k, v) :: setsOf ops
  | .get _ :: ops => setsOf ops

/-- Spec-side definition (from the claim wording, not from the code): the
distinct keys of a write sequence ordered from least to most recently
written.  Re-writing a key moves it to the most-recent end. -/
def lastWriteOrder (ks : List String) : List String :=
  ks.foldl (fun acc k => acc.erase k ++ [k]) []

/-- Spec-side definition: the at-most-`m` most recently written distinct
keys of a write sequence, oldest first. -/
def lastWritten (m : Nat) (ks : List String) : List String :=
  (lastWriteOrder ks).drop ((lastWriteOrder ks).length - m)

/-- Running a sequence of bare writes from a starting state. -/
def runSets (c : AnalysisCacheService V) : List (String × V) → Option (AnalysisCacheService V)
  | [] => some c
  | (k, v) :: ws =>
    match c.set k v with
    | none => none
    | some c2 => runSets c2 ws

/-- Invariant relating a reachable cache state to the write history `ks`
that produced it: capacity is the construction-time one, dict keys and
queue agree, the queue is duplicate-free and bounded, and the queue is a
suffix of the spec-side last-write order (the whole order while below
capacity). -/
def Tracks (m : Nat) (ks : List String) (c : AnalysisCacheService V) : Prop :=
  c.maxSize = m ∧ c.cache.map Prod.fst = c.queue ∧ c.queue.Nodup ∧
  c.queue.length ≤ m ∧
  ∃ p, lastWriteOrder ks = p ++ c.queue ∧ (p = [] ∨ c.queue.length = m)

/-- The derived dedup key `_key` built by
`FootballAPIService.normalize_event`: the 5-tuple
`(time.elapsed, team.id, player.id, type, detail)`.  Each component is
optional because the upstream dict fields may be missing. -/
structure EventKey where
  minuto : Option Int
  teamId : Option Int
  playerId : Option Int
  tipo : Option String
  detalle : Option String
  deriving DecidableEq, Repr

/-- A normalized match event as produced by
`FootballAPIService.normalize_event`: display fields plus the derived
dedup key.  `key` is optional because events read back from a store may
predate the `_key` field (`e.get("_key")` in the source). -/
structure NormEvent where
  minuto : Option Int
  equipo : Option String
  jugador : Option String
  tipo : Option String
  detalle : Option String
  key : Option EventKey
  deriving DecidableEq, Repr

/-- The relevant fields of a raw API event consumed by
`normalize_event`. -/
structure RawEvent where
  timeElapsed : Option Int
  teamId : Option Int
  teamName : Option String
  playerId : Option Int
  playerName : Option String
  tipo : Option String
  detalle : Option String
  deriving DecidableEq, Repr

/-- `FootballAPIService.normalize_event`: projects the display fields and
attaches the derived `_key` tuple. -/
def normalize_event (e : RawEvent) : NormEvent :=
  { minuto := e.timeElapsed
    equipo := e.teamName
    jugador := e.playerName
    tipo := e.tipo
    detalle := e.detalle
    key := some ⟨e.timeElapsed, e.teamId, e.playerId, e.tipo, e.detalle⟩ }

/-- An entry of `CacheManager._cache` / `_stats_cache`:
`{"data": value, "timestamp": written_at}`. -/
structure CMEntry (V : Type u) where
  data : V
  timestamp : Int
  deriving DecidableEq, Repr

/-- `CacheManager` (`app/core/cache.py`): the general key-value cache
with per-call TTL, the per-fixture last-events store, and the
per-fixture statistics cache.  Wall-clock instants are explicit `Int`
parameters of the operations (`time.time()` at the call). -/
structure CacheManager (V S : Type u) where
  cache : List (String × CMEntry V)
  lastEvents : List (Int × List NormEvent)
  statsCache : List (Int × CMEntry S)

namespace CacheManager

/-- Constructor `CacheManager.__init__`: all three stores empty. -/
def init : CacheManager V S :=
  ⟨[], [], []⟩

/-- `CacheManager.get(key, ttl=300)`: per-call TTL; an entry older than
`ttl` is deleted from the store and `None` is returned, otherwise the
stored data is returned with the store untouched. -/
def get (cm : CacheManager V S) (key : String) (ttl : Int) (now : Int) :
    Option V × CacheManager V S :=
  match lookupKey key cm.cache with
  | none => (none, cm)
  | some entry =>
    if ttl < now - entry.timestamp then
      (none, { cm with cache := eraseKey key cm.cache })
    else
      (some entry.data, cm)

/-- `CacheManager.set`: store the value with the current timestamp. -/
def set (cm : CacheManager V S) (key : String) (value : V) (now : Int) :
    CacheManager V S :=
  { cm with cache := setAssoc key ⟨value, now⟩ cm.cache }

/-- `CacheManager.get_last_events`: the stored list, defaulting to `[]`. -/
def get_last_events (cm : CacheManager V S) (fixtureId : Int) : List NormEvent :=
  (lookupKey fixtureId cm.lastEvents).getD []

/-- `CacheManager.set_last_events`: stores the list, first truncating any
list longer than 300 to its last 300 elements (`events[-300:]`). -/
def set_last_events (cm : CacheManager V S) (fixtureId : Int)
    (events : List NormEvent) : CacheManager V S :=
  let events2 := if 300 < events.length then events.drop (events.length - 300) else events
  { cm with lastEvents := setAssoc fixtureId events2 cm.lastEvents }

/-- `CacheManager.get_stats(fixture_id, ttl=60)`: per-call TTL over the
statistics cache, deleting on expiry exactly as `get` does. -/
def get_stats (cm : CacheManager V S) (fixtureId : Int) (ttl : Int) (now : Int) :
    Option S × CacheManager V S :=
  match lookupKey fixtureId cm.statsCache with
  | none => (none, cm)
  | some entry =>
    if ttl < now - entry.timestamp then
      (none, { cm with statsCache := eraseKey fixtureId cm.statsCache })
    else
      (some entry.data, cm)

/-- `CacheManager.set_stats`. -/
def set_stats (cm : CacheManager V S) (fixtureId : Int) (stats : S) (now : Int) :
    CacheManager V S :=
  { cm with statsCache := setAssoc fixtureId ⟨stats, now⟩ cm.statsCache }

/-- `CacheManager.clear`. -/
def clear (_cm : CacheManager V S) : CacheManager V S :=
  init

end CacheManager

/-- A sequence of `set_last_events` writes applied in order. -/
def runLastEventWrites (cm : CacheManager V S) :
    List (Int × List NormEvent) → CacheManager V S
  | [] => cm
  | (fid, evs) :: ws => runLastEventWrites (cm.set_last_events fid evs) ws

/-- The FIRST `TTLCache` definition of `app/core/cache.py` (the class the
module-level `cache_api` instance is built from, later shadowed by a
second class of the same name).  TTL is the hard-coded 10 seconds, and —
unlike every other cache class in the file — the expired branch of `get`
returns `None` WITHOUT deleting the entry. -/
structure TTLCacheA (V : Type u) where
  store : List (String × (Int × V))

namespace TTLCacheA

/-- `get` of the first `TTLCache`: absent on expiry, but the store is
never mutated (`return None  # expiró` with no `del`). -/
def get (c : TTLCacheA V) (key : String) (now : Int) : Option V × TTLCacheA V :=
  match lookupKey key c.store with
  | none => (none, c)
  | some (ts, value) =>
    if 10 < now - ts then (none, c) else (some value, c)

/-- `set` of the first `TTLCache`: `store[key] = (time.time(), value)`. -/
def set (c : TTLCacheA V) (key : String) (value : V) (now : Int) : TTLCacheA V :=
  { store := setAssoc key (now, value) c.store }

end TTLCacheA

/-- The SECOND `TTLCache` definition of `app/core/cache.py` (the one
used for `events_cache` and the other module-level instances): TTL is
supplied at construction (`ttl_seconds`, default 10) and the expired
branch of `get` deletes the entry before returning `None`. -/
structure TTLCacheB (V : Type u) where
  ttl : Int
  store : List (String × (Int × V))

namespace TTLCacheB

/-- `get` of the second `TTLCache`: lazy expiry with deletion. -/
def get (c : TTLCacheB V) (key : String) (now : Int) : Option V × TTLCacheB V :=
  match lookupKey key c.store with
  | none => (none, c)
  | some (ts, value) =>
    if c.ttl < now - ts then
      (none, { c with store := eraseKey key c.store })
    else
      (some value, c)

/-- `set` of the second `TTLCache`. -/
def set (c : TTLCacheB V) (key : String) (value : V) (now : Int) : TTLCacheB V :=
  { c with store := setAssoc key (now, value) c.store }

/-- `delete` of the second `TTLCache`. -/
def delete (c : TTLCacheB V) (key : String) : TTLCacheB V :=
  { c with store := eraseKey key c.store }

end TTLCacheB

/-- `FootballAPIService.diff_new_events`: events of `new_events` whose
`_key` is not among the (present) `_key`s of the stored baseline are
new; when the delta is non-empty the baseline is replaced by
`prev_events + new` (an append) through `set_last_events`; when the
delta is empty the store is left untouched. -/
def diff_new_events (cm : CacheManager V S) (fixtureId : Int)
    (newEvents : List NormEvent) : List NormEvent × CacheManager V S :=
  let prevEvents := cm.get_last_events fixtureId
  let prevKeys := prevEvents.filterMap (fun e => e.key)
  let new := newEvents.filter (fun e =>
    match e.key with
    | some k => !(decide (k ∈ prevKeys))
    | none => true)
  (new, if new.isEmpty then cm else cm.set_last_events fixtureId (prevEvents ++ new))

/-- Match status dict built by `StreamService._get_match_status` (always
total: its body catches every exception and returns an `Error` status). -/
structure MatchStatus where
  estado : String
  minuto : Option Int
  marcadorLocal : Option Int
  marcadorVisitante : Option Int
  deriving DecidableEq, Repr

/-- An event as post-processed by `StreamService._process_new_events`:
display fields plus the random bet attached to cards. -/
structure ProcessedEvent where
  minuto : Option Int
  equipo : Option String
  jugador : Option String
  tipo : Option String
  detalle : Option String
  apuesta : Option Nat
  deriving DecidableEq, Repr

/-- `StreamService._process_new_events`: project the display fields and
attach `apuesta` (a random draw, modelled by the supplied `rand` applied
to the event index) to `Card` events only. -/
def process_new_events (events : List NormEvent) (rand : Nat → Nat) :
    List ProcessedEvent :=
  events.enum.map (fun ie =>
    { minuto := ie.2.minuto
      equipo := ie.2.equipo
      jugador := ie.2.jugador
      tipo := ie.2.tipo
      detalle := ie.2.detalle
      apuesta := if ie.2.tipo = some "Card" then some (rand ie.1) else none })

/-- Payload of one emitted stream message: the `data` dicts built inside
`stream_match_events` (connection-ready, per-tick update, or error). -/
inductive SSEData where
  | ready (fixtureId : Int) (statusText : String) (initialStatus : MatchStatus)
  | tick (fixtureId : Int) (nuevos : List ProcessedEvent) (status : MatchStatus)
  | error (message : String)
  deriving DecidableEq, Repr

/-- One emitted stream message before wire formatting: the `event_type`
tag passed to `_format_sse_event` plus its payload. -/
structure SSEFrame where
  eventType : String
  data : SSEData
  deriving DecidableEq, Repr

/-- `StreamService._format_sse_event`: the SSE text frame
`event: <type>\ndata: <json>\n\n`; the serialized payload is taken as a
string (the JSON encoder is an external library). -/
def format_sse_event (eventType : String) (data : String) : String :=
  "event: " ++ eventType ++ "\ndata: " ++ data ++ "\n\n"

/-- The wire text of a frame, given a JSON serializer for payloads. -/
def wire_frame (serialize : SSEData → String) (f : SSEFrame) : String :=
  format_sse_event f.eventType (serialize f.data)

/-- What one poll tick observes when nothing raises: the current match
status (total), the fetched current events, and the random draws used by
`_process_new_events`. -/
structure TickData where
  status : MatchStatus
  events : List NormEvent
  rand : Nat → Nat

/-- Loop-carried state of `stream_match_events`: the `baseline` local
variable (mirrored into `events_history` on every update) and this
fixture's entry of `_last_status_cache`. -/
structure StreamState where
  baseline : List NormEvent
  lastStatus : Option MatchStatus

/-- `StreamService._has_status_changed`: first observation counts as a
change; afterwards only the literal `estado` string is compared. -/
def has_status_changed (lastStatus : Option MatchStatus) (current : MatchStatus) : Bool :=
  match lastStatus with
  | none => true
  | some ls => ls.estado != current.estado

/-- `StreamService._get_new_events`: events of the current fetch that are
not whole-record members of the baseline. -/
def get_new_events (baseline current : List NormEvent) : List NormEvent :=
  current.filter (fun e => !(decide (e ∈ baseline)))

/-- One iteration of the polling loop of `stream_match_events`: the
frames it yields and the state it carries to the next iteration.  An
exception anywhere in the tick (`Except.error`) yields exactly one error
frame and leaves the state untouched. -/
def stream_tick (fixtureId : Int) (st : StreamState)
    (inp : Except String TickData) : List SSEFrame × StreamState :=
  match inp with
  | .error msg => ([⟨"error", SSEData.error msg⟩], st)
  | .ok d =>
    let newEvents := get_new_events st.baseline d.events
    let statusChanged := has_status_changed st.lastStatus d.status
    if !newEvents.isEmpty || statusChanged then
      let processed := if !newEvents.isEmpty then process_new_events newEvents d.rand else []
      let eventType := if !newEvents.isEmpty then "events" else "status"
      ([⟨eventType, SSEData.tick fixtureId processed d.status⟩],
        { baseline := if !newEvents.isEmpty then d.events else st.baseline
          lastStatus := if statusChanged then some d.status else st.lastStatus })
    else
      ([], st)

/-- The polling loop run over a finite prefix of ticks. -/
def run_ticks (fixtureId : Int) (st : StreamState) :
    List (Except String TickData) → List SSEFrame × StreamState
  | [] => ([], st)
  | inp :: rest =>
    let r := stream_tick fixtureId st inp
    let r2 := run_ticks fixtureId r.2 rest
    (r.1 ++ r2.1, r2.2)

/-- Sort key used on normalized events:
`x["minuto"] if x["minuto"] is not None else -1`. -/
def minutoKey (e : NormEvent) : Int :=
  e.minuto.getD (-1)

/-- Stable sort by `minutoKey`, modelling Python's stable `list.sort`. -/
def sortByMinuto (evs : List NormEvent) : List NormEvent :=
  evs.insertionSort (fun a b => minutoKey a ≤ minutoKey b)

/-- `StreamService._initialize_baseline` composed with the subsequent
`events_history.get_last_events` read: if a non-empty baseline is stored
it is used; otherwise the bootstrap fetch is normalized and sorted, an
exception during the fetch giving the empty baseline. -/
def initialize_baseline (stored : List NormEvent)
    (bootstrap : Except String (List RawEvent)) : List NormEvent :=
  if stored.isEmpty then
    match bootstrap with
    | .ok raw => sortByMinuto (raw.map normalize_event)
    | .error _ => []
  else stored

/-- `StreamService.stream_match_events` over a finite prefix of poll
ticks: initialize the baseline, record the initial status, emit the one
`ready` frame, then run the polling loop. -/
def stream_match_events (fixtureId : Int) (stored : List NormEvent)
    (bootstrap : Except String (List RawEvent)) (initialStatus : MatchStatus)
    (ticks : List (Except String TickData)) : List SSEFrame × StreamState :=
  let baseline0 := initialize_baseline stored bootstrap
  let st0 : StreamState := ⟨baseline0, some initialStatus⟩
  let r := run_ticks fixtureId st0 ticks
  (⟨"ready", SSEData.ready fixtureId "listening" initialStatus⟩ :: r.1, r.2)

/-- `FacePrediction` (`app/schemas/io.py`); the float score is embedded
as a rational. -/
structure FacePrediction where
  bbox : List Int
  label : String
  score : ℚ
  deriving DecidableEq, Repr

/-- `JerseyDetection` (`app/schemas/io.py`). -/
structure JerseyDetection where
  team : String
  bbox : List Int
  confidence : ℚ
  deriving DecidableEq, Repr

/-- The `processing_times` dict of `CompleteAnalysisResponse`: one entry
per detector plus the total.  Durations are the ghost measurements of
`time.perf_counter()` differences, embedded as rationals (the source's
3-decimal rounding of floats is outside the embedding). -/
structure ProcessingTimes where
  total : ℚ
  faces : ℚ
  jerseys : ℚ
  timeOcr : ℚ
  deriving DecidableEq, Repr

/-- `CompleteAnalysisResponse` (`app/schemas/io.py`). -/
structure CompleteAnalysisResponse where
  numFaces : Nat
  faces : List FacePrediction
  jerseys : List JerseyDetection
  colombiaCount : Nat
  matchTime : Option String
  imageProcessed : Bool
  totalDetections : Nat
  processingTimes : ProcessingTimes
  deriving DecidableEq, Repr

/-- `AnalysisService._detect_faces`: the ML pipeline inside the `try` is
the opaque detector contract (run succeeds with predictions or raises);
the `except` path returns the empty list with the elapsed time. -/
def detect_faces (run : Except String (List FacePrediction)) (elapsed : ℚ) :
    List FacePrediction × ℚ :=
  match run with
  | .ok faces => (faces, elapsed)
  | .error _ => ([], elapsed)

/-- `AnalysisService._detect_jerseys`: on success also counts the
Colombia jerseys; the `except` path returns `([], 0)` with the elapsed
time. -/
def detect_jerseys (run : Except String (List JerseyDetection)) (elapsed : ℚ) :
    List JerseyDetection × Nat × ℚ :=
  match run with
  | .ok jerseys => (jerseys, (jerseys.filter (fun j => j.team = "Colombia")).length, elapsed)
  | .error _ => ([], 0, elapsed)

/-- `AnalysisService._detect_time`: the `except` path returns `None` with
the elapsed time. -/
def detect_time (run : Except String (Option String)) (elapsed : ℚ) :
    Option String × ℚ :=
  match run with
  | .ok t => (t, elapsed)
  | .error _ => (none, elapsed)

/-- `AnalysisService.analyze_complete`: fan out the three detectors (each
given its outcome and its own measured duration), collect the three
results, and build the complete response with per-component times plus
the total. -/
def analyze_complete (facesRun : Except String (List FacePrediction)) (faceElapsed : ℚ)
    (jerseysRun : Except String (List JerseyDetection)) (jerseyElapsed : ℚ)
    (timeRun : Except String (Option String)) (timeElapsed : ℚ)
    (totalElapsed : ℚ) : CompleteAnalysisResponse :=
  let fr := detect_faces facesRun faceElapsed
  let jr := detect_jerseys jerseysRun jerseyElapsed
  let tr := detect_time timeRun timeElapsed
  { numFaces := fr.1.length
    faces := fr.1
    jerseys := jr.1
    colombiaCount := jr.2.1
    matchTime := tr.1
    imageProcessed := true
    totalDetections := fr.1.length + jr.1.length
    processingTimes := ⟨totalElapsed, fr.2, jr.2.2, tr.2⟩ }

/-- Outcome of the work submitted to the executor by the `/analyze`
endpoint of `app/backend_api7.py`: normal return within the request
timeout, `asyncio.TimeoutError`, or an exception from the work. -/
inductive WorkResult (α : Type u) where
  | ok (value : α)
  | timeout
  | exc (message : String)
  deriving DecidableEq, Repr

/-- HTTP-level outcome of the `/analyze` endpoint. -/
inductive AnalyzeResponse (α : Type u) where
  | success (value : α)
  | unavailable503
  | busy429
  | timeout504
  | error500 (message : String)
  deriving DecidableEq, Repr

/-- The `executor_slots` semaphore of `app/backend_api7.py`: its free
count (`asyncio.Semaphore(MAX_WORKERS)`). -/
structure SlotState where
  free : Nat
  deriving DecidableEq, Repr

/-- The non-blocking probe
`asyncio.wait_for(executor_slots.acquire(), timeout=0.001)`: succeeds
immediately when a slot is free, otherwise reports `Busy` without
queueing the caller. -/
def try_acquire (s : SlotState) : Option SlotState :=
  if s.free = 0 then none else some ⟨s.free - 1⟩

/-- `executor_slots.release()`. -/
def release (s : SlotState) : SlotState :=
  ⟨s.free + 1⟩

/-- The `/analyze` endpoint slot discipline: reject with 503 when models
are missing (before any acquire), translate a failed probe into an
immediate 429, and otherwise run the work with the slot released in the
`finally` on every exit path (success, request timeout → 504, raised
work → 500).  The last two components count successful acquires and
executed releases of `executor_slots`. -/
def analyze {α : Type u} (modelsLoaded : Bool) (s : SlotState) (w : WorkResult α) :
    SlotState × AnalyzeResponse α × Nat × Nat :=
  if !modelsLoaded then
    (s, .unavailable503, 0, 0)
  else
    match try_acquire s with
    | none => (s, .busy429, 0, 0)
    | some s2 =>
      match w with
      | .ok v => (release s2, .success v, 1, 1)
      | .timeout => (release s2, .timeout504, 1, 1)
      | .exc m => (release s2, .error500 m, 1, 1)

/-- Sample dedup key of a first concrete goal event. -/
def goalKeyA : EventKey :=
  ⟨some 10, some 1, some 7, some "Goal", some "Normal Goal"⟩

/-- Sample dedup key of a second concrete goal event. -/
def goalKeyB : EventKey :=
  ⟨some 25, some 2, some 9, some "Goal", some "Normal Goal"⟩

/-- Sample dedup key of a third concrete goal event. -/
def goalKeyC : EventKey :=
  ⟨some 70, some 1, some 11, some "Goal", some "Normal Goal"⟩

/-- Concrete normalized event A used in scenarios. -/
def eventA : NormEvent :=
  ⟨some 10, some "Colombia", some "James", some "Goal", some "Normal Goal", some goalKeyA⟩

/-- Concrete normalized event B used in scenarios. -/
def eventB : NormEvent :=
  ⟨some 25, some "Brasil", some "Neymar", some "Goal", some "Normal Goal", some goalKeyB⟩

/-- Concrete normalized event C used in scenarios. -/
def eventC : NormEvent :=
  ⟨some 70, some "Colombia", some "Diaz", some "Goal", some "Normal Goal", some goalKeyC⟩

/-- Concrete match status First Half. -/
def statusFH : MatchStatus :=
  ⟨"First Half", some 20, some 0, some 0⟩

/-- Concrete match status Halftime. -/
def statusHT : MatchStatus :=
  ⟨"Halftime", some 45, some 1, some 0⟩

theorem lookupKey_isSome_iff (k : K) (l : List (K × V)) :
    (lookupKey k l).isSome = true ↔ k ∈ l.map Prod.fst := by
  induction l with
  | nil => simp [lookupKey]
  | cons p ps ih =>
    by_cases h : p.1 = k
    · simp [lookupKey, h]
    · simp [lookupKey, h, ih, Ne.symm h]

theorem mapFst_eraseKey (k : K) (l : List (K × V)) :
    (eraseKey k l).map Prod.fst = (l.map Prod.fst).erase k := by
  induction l with
  | nil => simp [eraseKey]
  | cons p ps ih =>
    by_cases h : p.1 = k
    · simp [eraseKey, h, List.erase_cons]
    · simp [eraseKey, h, List.erase_cons, ih]

theorem lookupKey_append_right (k : K) (l₁ l₂ : List (K × V))
    (h : k ∉ l₁.map Prod.fst) :
    lookupKey k (l₁ ++ l₂) = lookupKey k l₂ := by
  induction l₁ with
  | nil => simp
  | cons p ps ih =>
    simp only [List.map_cons, List.mem_cons] at h
    push_neg at h
    simp [lookupKey, Ne.symm h.1, ih h.2]

theorem lastWriteOrder_append (ks : List String) (k : String) :
    lastWriteOrder (ks ++ [k]) = (lastWriteOrder ks).erase k ++ [k] := by
  simp [lastWriteOrder, List.foldl_append]

theorem lastWriteOrder_nodup (ks : List String) : (lastWriteOrder ks).Nodup := by
  suffices h : ∀ acc : List String, acc.Nodup →
      (ks.foldl (fun acc k => acc.erase k ++ [k]) acc).Nodup by
    exact h [] List.nodup_nil
  induction ks with
  | nil => intro acc hacc; simpa using hacc
  | cons k ks ih =>
    intro acc hacc
    refine ih _ ?_
    rw [List.nodup_append]
    refine ⟨hacc.erase k, List.nodup_singleton k, ?_⟩
    rw [List.disjoint_singleton]
    intro hmem
    exact ((hacc.mem_erase_iff).mp hmem).1 rfl

theorem tracks_init (m : Nat) : Tracks m [] (AnalysisCacheService.init (V := V) m) := by
  refine ⟨rfl, rfl, List.nodup_nil, by simp [AnalysisCacheService.init], [], ?_, Or.inl rfl⟩
  simp [lastWriteOrder, AnalysisCacheService.init]

theorem set_tracks {m : Nat} (hm : 1 ≤ m) {ks : List String}
    {c : AnalysisCacheService V} (h : Tracks m ks c) (k : String) (v : V) :
    ∃ c2, c.set k v = some c2 ∧ Tracks m (ks ++ [k]) c2 := by
  obtain ⟨hmax, hwf, hnd, hlen, p, hL, hpm⟩ := h
  have hLnd : (p ++ c.queue).Nodup := hL ▸ lastWriteOrder_nodup ks
  by_cases hk : k ∈ c.queue
  · -- re-set of an existing key
    have hkc : (lookupKey k c.cache).isSome = true := by
      rw [lookupKey_isSome_iff, hwf]; exact hk
    have hkp : k ∉ p := fun hp => (List.nodup_append.mp hLnd).2.2 hp hk
    have h1 : 1 ≤ c.queue.length := List.length_pos_of_mem hk
    have hel : (c.queue.erase k).length = c.queue.length - 1 :=
      List.length_erase_of_mem hk
    refine ⟨{ c with
                cache := eraseKey k c.cache ++ [(k, v)]
                queue := c.queue.erase k ++ [k] }, ?_, ?_, ?_, ?_, ?_, ?_⟩
    · simp [AnalysisCacheService.set, hkc]
    · exact hmax
    · simp [mapFst_eraseKey, hwf]
    · rw [List.nodup_append]
      refine ⟨hnd.erase k, List.nodup_singleton k, ?_⟩
      rw [List.disjoint_singleton]
      intro hmem
      exact ((hnd.mem_erase_iff).mp hmem).1 rfl
    · simp only [List.length_append, List.length_singleton, hel]
      omega
    · refine ⟨p, ?_, ?_⟩
      · rw [lastWriteOrder_append, hL, List.erase_append_right _ hkp,
            List.append_assoc]
      · rcases hpm with hp | hq
        · exact Or.inl hp
        · refine Or.inr ?_
          simp only [List.length_append, List.length_singleton, hel]
          omega
  · -- genuinely new key
    have hkc : (lookupKey k c.cache).isSome = false := by
      rw [Bool.eq_false_iff]
      intro habs
      exact hk (hwf ▸ (lookupKey_isSome_iff k c.cache).mp habs)
    have hqlen : c.queue.length = c.cache.length := by
      rw [← hwf, List.length_map]
    by_cases hcap : c.maxSize ≤ c.cache.length
    · -- at capacity: evict the head of the queue
      have hqm : c.queue.length = m := by omega
      cases hq : c.queue with
      | nil => rw [hq] at hqm; simp at hqm; omega
      | cons o rest =>
        have hrest : rest.Nodup ∧ o ∉ rest := by
          have := hq ▸ hnd
          exact ⟨(List.nodup_cons.mp this).2, (List.nodup_cons.mp this).1⟩
        have hkrest : k ∉ rest := fun hmem => hk (hq ▸ List.mem_cons_of_mem o hmem)
        refine ⟨{ c with
                    cache := eraseKey o c.cache ++ [(k, v)]
                    queue := rest ++ [k] }, ?_, ?_, ?_, ?_, ?_, ?_⟩
        · simp [AnalysisCacheService.set, hkc, hcap, hq]
        · exact hmax
        · simp only [List.map_append, mapFst_eraseKey, hwf, hq,
            List.erase_cons_head, List.map_cons, List.map_nil]
        · rw [List.nodup_append]
          exact ⟨hrest.1, List.nodup_singleton k,
            List.disjoint_singleton.mpr hkrest⟩
        · have : rest.length + 1 = m := by rw [hq] at hqm; simpa using hqm
          simp only [List.length_append, List.length_singleton]
          omega
        · by_cases hkp : k ∈ p
          · refine ⟨p.erase k ++ [o], ?_, ?_⟩
            · rw [lastWriteOrder_append, hL, hq,
                List.erase_append_left _ hkp]
              simp [List.append_assoc]
            · refine Or.inr ?_
              have : rest.length + 1 = m := by rw [hq] at hqm; simpa using hqm
              simp only [List.length_append, List.length_singleton]
              omega
          · have hkL : k ∉ p ++ c.queue := by
              simp only [List.mem_append]
              rintro (hp | hc)
              · exact hkp hp
              · exact hk hc
            refine ⟨p ++ [o], ?_, ?_⟩
            · rw [lastWriteOrder_append, hL, List.erase_of_not_mem hkL, hq]
              simp [List.append_assoc]
            · refine Or.inr ?_
              have : rest.length + 1 = m := by rw [hq] at hqm; simpa using hqm
              simp only [List.length_append, List.length_singleton]
              omega
    · -- below capacity: plain append
      have hroom : c.queue.length < m := by omega
      have hp0 : p = [] := by
        rcases hpm with hp | hq
        · exact hp
        · omega
      have hkL : k ∉ lastWriteOrder ks := by
        rw [hL, hp0, List.nil_append]; exact hk
      refine ⟨{ c with
                  cache := c.cache ++ [(k, v)]
                  queue := c.queue ++ [k] }, ?_, ?_, ?_, ?_, ?_, ?_⟩
      · simp [AnalysisCacheService.set, hkc, hcap]
      · exact hmax
      · simp [hwf]
      · rw [List.nodup_append]
        exact ⟨hnd, List.nodup_singleton k, List.disjoint_singleton.mpr hk⟩
      · simp only [List.length_append, List.length_singleton]
        omega
      · refine ⟨[], ?_, Or.inl rfl⟩
        rw [lastWriteOrder_append, List.erase_of_not_mem hkL, hL, hp0]
        simp

theorem runSets_tracks {m : Nat} (hm : 1 ≤ m) :
    ∀ (ws : List (String × V)) (ks : List String) (c : AnalysisCacheService V),
      Tracks m ks c →
      ∃ c2, runSets c ws = some c2 ∧ Tracks m (ks ++ ws.map Prod.fst) c2 := by
  intro ws
  induction ws with
  | nil => intro ks c h; exact ⟨c, rfl, by simpa using h⟩
  | cons kv ws ih =>
    intro ks c h
    obtain ⟨c1, hset, htr⟩ := set_tracks hm h kv.1 kv.2
    obtain ⟨c2, hrun, htr2⟩ := ih (ks ++ [kv.1]) c1 htr
    refine ⟨c2, ?_, ?_⟩
    · cases kv; simp only [runSets]; rw [hset]; exact hrun
    · simpa [List.append_assoc] using htr2

theorem tracks_lastWritten {m : Nat} {ks : List String}
    {c : AnalysisCacheService V} (h : Tracks m ks c) :
    c.queue = lastWritten m ks := by
  obtain ⟨_, _, _, hlen, p, hL, hpm⟩ := h
  unfold lastWritten
  rw [hL]
  rcases hpm with hp | hq
  · subst hp
    have h0 : c.queue.length - m = 0 := by omega
    simp [h0]
  · have hd : (p ++ c.queue).length - m = p.length := by
      rw [List.length_append, hq]
      omega
    rw [hd, List.drop_left]

theorem runOps_eq_runSets :
    ∀ (ops : List (CacheOp V)) (c : AnalysisCacheService V),
      runOps c ops = runSets c (setsOf ops) := by
  intro ops
  induction ops with
  | nil => intro c; rfl
  | cons op ops ih =>
    intro c
    cases op with
    | set k v =>
      simp only [runOps, applyOp, setsOf, runSets]
      cases c.set k v with
      | none => rfl
      | some c2 => exact ih c2
    | get k =>
      simp only [runOps, applyOp, setsOf]
      exact ih c

/-- C1: BoundedKeyedCache (AnalysisCacheService) keeps the FIFO-on-write
eviction policy.  For every sequence of interleaved `set`/`get`
operations from a fresh cache of positive capacity `m`: no operation
raises, the final cache holds at most `m` entries, dict keys agree with
the order queue, the surviving keys are exactly the at-most-`m`
most-recently-written distinct keys (spec-side `lastWritten`), and the
final state coincides with the state reached by the write subsequence
alone — reads never affect which key is evicted next. -/
theorem analysisCache_fifo_on_write {V : Type u} (m : Nat) (hm : 1 ≤ m)
    (ops : List (CacheOp V)) :
    ∃ c, runOps (AnalysisCacheService.init m) ops = some c ∧
      c.cache.length ≤ m ∧
      c.cache.map Prod.fst = c.queue ∧
      c.queue = lastWritten m ((setsOf ops).map Prod.fst) ∧
      runOps (AnalysisCacheService.init m) ops =
        runSets (AnalysisCacheService.init m) (setsOf ops) := by
  obtain ⟨c, hrun, htr⟩ := runSets_tracks hm (setsOf ops) [] _ (tracks_init m)
  have heq := runOps_eq_runSets ops (AnalysisCacheService.init (V := V) m)
  have htr2 : Tracks m ((setsOf ops).map Prod.fst) c := by simpa using htr
  refine ⟨c, ?_, ?_, htr2.2.1, ?_, ?_⟩
  · rw [heq]; exact hrun
  · have hwf := htr2.2.1
    have hlen := htr2.2.2.2.1
    have hc := congrArg List.length hwf
    rw [List.length_map] at hc
    omega
  · exact tracks_lastWritten htr2
  · rw [heq]

/-- Witness for C1: capacity 2 with reads interleaved between writes;
the keys written are 9:00, 9:30, 10:00, then 9:30 again. -/
theorem analysisCache_fifo_on_write_witness :
    1 ≤ 2 ∧
    ∃ c, runOps (AnalysisCacheService.init 2)
        [CacheOp.set "9:00" (1 : Nat), CacheOp.get "9:00", CacheOp.set "9:30" 2,
          CacheOp.set "10:00" 3, CacheOp.get "9:30", CacheOp.set "9:30" 4] = some c ∧
      c.cache.length ≤ 2 ∧
      c.cache.map Prod.fst = c.queue ∧
      c.queue = lastWritten 2 ((setsOf
        [CacheOp.set "9:00" (1 : Nat), CacheOp.get "9:00", CacheOp.set "9:30" 2,
          CacheOp.set "10:00" 3, CacheOp.get "9:30", CacheOp.set "9:30" 4]).map Prod.fst) ∧
      runOps (AnalysisCacheService.init 2)
        [CacheOp.set "9:00" (1 : Nat), CacheOp.get "9:00", CacheOp.set "9:30" 2,
          CacheOp.set "10:00" 3, CacheOp.get "9:30", CacheOp.set "9:30" 4] =
        runSets (AnalysisCacheService.init 2) (setsOf
          [CacheOp.set "9:00" (1 : Nat), CacheOp.get "9:00", CacheOp.set "9:30" 2,
            CacheOp.set "10:00" 3, CacheOp.get "9:30", CacheOp.set "9:30" 4]) :=
  ⟨by decide, analysisCache_fifo_on_write 2 (by decide) _⟩

/-- C8: re-setting an existing key replaces the stored value, makes the
key the newest by write order (last in the order queue, and the
`newest_time` reported by `get_stats`), and leaves both the dict size
and the queue length unchanged.  The hypotheses are the structural
invariant every reachable state satisfies (dict keys equal the queue,
queue duplicate-free) plus presence of the key. -/
theorem analysisCache_reset_existing {V : Type u} (c : AnalysisCacheService V)
    (k : String) (v : V)
    (hwf : c.cache.map Prod.fst = c.queue) (hnd : c.queue.Nodup)
    (hk : k ∈ c.queue) :
    ∃ c2, c.set k v = some c2 ∧
      c2.get k = some v ∧
      (c2.get_stats).newestTime = some k ∧
      c2.queue.getLast? = some k ∧
      (c2.get_stats).size = (c.get_stats).size ∧
      c2.queue.length = c.queue.length := by
  have hkc : (lookupKey k c.cache).isSome = true := by
    rw [lookupKey_isSome_iff, hwf]; exact hk
  have hkm : k ∈ c.cache.map Prod.fst := by rw [hwf]; exact hk
  refine ⟨{ c with
              cache := eraseKey k c.cache ++ [(k, v)]
              queue := c.queue.erase k ++ [k] }, ?_, ?_, ?_, ?_, ?_, ?_⟩
  · simp [AnalysisCacheService.set, hkc]
  · have hnotin : k ∉ (eraseKey k c.cache).map Prod.fst := by
      rw [mapFst_eraseKey, hwf]
      intro hmem
      exact ((hnd.mem_erase_iff).mp hmem).1 rfl
    show lookupKey k (eraseKey k c.cache ++ [(k, v)]) = some v
    rw [lookupKey_append_right _ _ _ hnotin]
    simp [lookupKey]
  · simp [AnalysisCacheService.get_stats, List.getLast?_append]
  · simp [List.getLast?_append]
  · have h1 : (eraseKey k c.cache).length = c.cache.length - 1 := by
      have h := congrArg List.length (mapFst_eraseKey k c.cache)
      rw [List.length_map, List.length_erase_of_mem hkm, List.length_map] at h
      exact h
    have h2 : 1 ≤ c.cache.length := by
      have h3 := List.length_pos_of_mem hkm
      rw [List.length_map] at h3
      omega
    simp only [AnalysisCacheService.get_stats, List.length_append,
      List.length_singleton, h1]
    omega
  · have h1 : (c.queue.erase k).length = c.queue.length - 1 :=
      List.length_erase_of_mem hk
    have h2 : 1 ≤ c.queue.length := List.length_pos_of_mem hk
    simp only [List.length_append, List.length_singleton, h1]
    omega

theorem lookupKey_eq_none_of_not_mem (k : K) (l : List (K × V))
    (h : k ∉ l.map Prod.fst) : lookupKey k l = none := by
  cases h2 : lookupKey k l with
  | none => rfl
  | some v =>
    exact absurd ((lookupKey_isSome_iff k l).mp (by rw [h2]; rfl)) h

theorem lookupKey_eraseKey_self (k : K) (l : List (K × V))
    (hnd : (l.map Prod.fst).Nodup) : lookupKey k (eraseKey k l) = none := by
  by_cases hk : k ∈ l.map Prod.fst
  · refine lookupKey_eq_none_of_not_mem k _ ?_
    rw [mapFst_eraseKey]
    intro hmem
    exact ((hnd.mem_erase_iff).mp hmem).1 rfl
  · refine lookupKey_eq_none_of_not_mem k _ ?_
    rw [mapFst_eraseKey]
    intro hmem
    exact hk (((hnd.mem_erase_iff).mp hmem).2)

theorem lookupKey_setAssoc_self (k : K) (v : V) (l : List (K × V)) :
    lookupKey k (setAssoc k v l) = some v := by
  induction l with
  | nil => simp [setAssoc, lookupKey]
  | cons p ps ih =>
    by_cases h : p.1 = k
    · simp [setAssoc, h, lookupKey]
    · simp [setAssoc, h, lookupKey, ih]

theorem lookupKey_setAssoc_ne (k k2 : K) (v : V) (l : List (K × V))
    (h : k ≠ k2) : lookupKey k (setAssoc k2 v l) = lookupKey k l := by
  induction l with
  | nil => simp [setAssoc, lookupKey, Ne.symm h]
  | cons p ps ih =>
    by_cases h2 : p.1 = k2
    · simp [setAssoc, h2, lookupKey, Ne.symm h, h2.symm ▸ (Ne.symm h)]
    · simp [setAssoc, h2, lookupKey, ih]

theorem get_last_events_set_self {V S : Type u} (cm : CacheManager V S)
    (fid : Int) (events : List NormEvent) :
    (cm.set_last_events fid events).get_last_events fid
      = if 300 < events.length then events.drop (events.length - 300) else events := by
  simp only [CacheManager.set_last_events, CacheManager.get_last_events,
    lookupKey_setAssoc_self, Option.getD_some]

theorem get_last_events_set_ne {V S : Type u} (cm : CacheManager V S)
    (fid fid2 : Int) (events : List NormEvent) (h : fid ≠ fid2) :
    (cm.set_last_events fid2 events).get_last_events fid
      = cm.get_last_events fid := by
  simp only [CacheManager.set_last_events, CacheManager.get_last_events,
    lookupKey_setAssoc_ne fid fid2 _ _ h]

theorem get_last_events_set_length {V S : Type u} (cm : CacheManager V S)
    (fid : Int) (events : List NormEvent) :
    ((cm.set_last_events fid events).get_last_events fid).length ≤ 300 := by
  rw [get_last_events_set_self]
  by_cases h : 300 < events.length
  · simp only [h, if_true, List.length_drop]
    omega
  · simp only [h, if_false]
    omega

theorem runLastEventWrites_capped {V S : Type u}
    (writes : List (Int × List NormEvent)) :
    ∀ cm : CacheManager V S,
      (∀ fid, ((cm.get_last_events fid)).length ≤ 300) →
      ∀ fid, ((runLastEventWrites cm writes).get_last_events fid).length ≤ 300 := by
  induction writes with
  | nil => intro cm h fid; exact h fid
  | cons w ws ih =>
    obtain ⟨wf, wevs⟩ := w
    intro cm h fid
    refine ih _ ?_ fid
    intro fid2
    by_cases he : fid2 = wf
    · subst he
      exact get_last_events_set_length cm fid2 wevs
    · rw [get_last_events_set_ne _ _ _ _ he]
      exact h fid2

/-- Witness for C8: a two-entry cache in which the older key is
re-written; it becomes the newest and the size stays 2. -/
theorem analysisCache_reset_existing_witness :
    ∃ c2, (AnalysisCacheService.mk 2 [("a", (1 : Nat)), ("b", 2)] ["a", "b"]).set "a" 7
        = some c2 ∧
      c2.get "a" = some 7 ∧
      (c2.get_stats).newestTime = some "a" ∧
      c2.queue.getLast? = some "a" ∧
      (c2.get_stats).size =
        ((AnalysisCacheService.mk 2 [("a", (1 : Nat)), ("b", 2)] ["a", "b"]).get_stats).size ∧
      c2.queue.length = (["a", "b"] : List String).length :=
  analysisCache_reset_existing
    (AnalysisCacheService.mk 2 [("a", (1 : Nat)), ("b", 2)] ["a", "b"])
    "a" 7 (by decide) (by decide) (by decide)

/-- C5 counterexample: in the first `TTLCache` of `app/core/cache.py`
(the class of the module-level `cache_api` instance), a `get` 11 seconds
after the write returns absent but does NOT delete the entry: the store
still contains the key afterwards, contradicting the claim that every
TTL form deletes expired entries on read. -/
theorem ttlCacheA_expired_entry_not_deleted :
    ((TTLCacheA.mk [("k", ((0 : Int), (42 : Nat)))]).get "k" 11).1 = none ∧
    lookupKey "k" (((TTLCacheA.mk [("k", ((0 : Int), (42 : Nat)))]).get "k" 11).2).store
      = some (0, 42) := by
  constructor
  · rfl
  · rfl

/-- C5 amended: an expired entry makes `get` return absent in all three
TTL forms, and the entry is deleted from the store by the per-call-TTL
form (`CacheManager.get`) and by the construction-time-TTL form (the
second `TTLCache`), while the first `TTLCache` (`cache_api`) leaves the
expired entry in the store untouched; a fresh entry is returned
unchanged with an unchanged store in all three forms. -/
theorem ttlCache_lazy_expiry {V S : Type u} :
    (∀ (cm : CacheManager V S) (key : String) (ttl now : Int) (e : CMEntry V),
      (cm.cache.map Prod.fst).Nodup →
      lookupKey key cm.cache = some e →
      ((ttl < now - e.timestamp →
          (cm.get key ttl now).1 = none ∧
          lookupKey key ((cm.get key ttl now).2).cache = none) ∧
        (now - e.timestamp ≤ ttl →
          cm.get key ttl now = (some e.data, cm)))) ∧
    (∀ (c : TTLCacheB V) (key : String) (now ts : Int) (v : V),
      (c.store.map Prod.fst).Nodup →
      lookupKey key c.store = some (ts, v) →
      ((c.ttl < now - ts →
          (c.get key now).1 = none ∧
          lookupKey key ((c.get key now).2).store = none) ∧
        (now - ts ≤ c.ttl →
          c.get key now = (some v, c)))) ∧
    (∀ (c : TTLCacheA V) (key : String) (now ts : Int) (v : V),
      lookupKey key c.store = some (ts, v) →
      (((10 : Int) < now - ts →
          (c.get key now).1 = none ∧
          (c.get key now).2 = c) ∧
        (now - ts ≤ 10 →
          c.get key now = (some v, c)))) := by
  refine ⟨?_, ?_, ?_⟩
  · intro cm key ttl now e hnd hl
    constructor
    · intro hexp
      simp only [CacheManager.get, hl, if_pos hexp]
      exact ⟨by trivial, lookupKey_eraseKey_self key cm.cache hnd⟩
    · intro hfresh
      simp only [CacheManager.get, hl, if_neg (by omega : ¬ ttl < now - e.timestamp)]
  · intro c key now ts v hnd hl
    constructor
    · intro hexp
      simp only [TTLCacheB.get, hl, if_pos hexp]
      exact ⟨by trivial, lookupKey_eraseKey_self key c.store hnd⟩
    · intro hfresh
      simp only [TTLCacheB.get, hl, if_neg (by omega : ¬ c.ttl < now - ts)]
  · intro c key now ts v hl
    constructor
    · intro hexp
      simp only [TTLCacheA.get, hl, if_pos hexp]
      exact ⟨by trivial, by trivial⟩
    · intro hfresh
      simp only [TTLCacheA.get, hl, if_neg (by omega : ¬ (10 : Int) < now - ts)]

/-- Witness for the amended C5: the per-call form deletes an entry that
expired (written at 0, read at 301 with ttl 300), the construction-time
form returns a fresh value unchanged, and the `cache_api` form returns
absent at 20 seconds while keeping the entry. -/
theorem ttlCache_lazy_expiry_witness :
    (((CacheManager.mk [("a", CMEntry.mk (5 : Nat) 0)] []
        ([] : List (Int × CMEntry Nat))).get "a" 300 301).1 = none ∧
      lookupKey "a" (((CacheManager.mk [("a", CMEntry.mk (5 : Nat) 0)] []
        ([] : List (Int × CMEntry Nat))).get "a" 300 301).2).cache = none) ∧
    ((TTLCacheB.mk 10 [("b", ((0 : Int), (7 : Nat)))]).get "b" 5
      = (some 7, TTLCacheB.mk 10 [("b", ((0 : Int), (7 : Nat)))])) ∧
    (((TTLCacheA.mk [("c", ((0 : Int), (9 : Nat)))]).get "c" 20).1 = none ∧
      ((TTLCacheA.mk [("c", ((0 : Int), (9 : Nat)))]).get "c" 20).2
        = TTLCacheA.mk [("c", ((0 : Int), (9 : Nat)))]) := by
  refine ⟨?_, ?_, ?_⟩
  · exact ((ttlCache_lazy_expiry (V := Nat) (S := Nat)).1
      (CacheManager.mk [("a", CMEntry.mk (5 : Nat) 0)] []
        ([] : List (Int × CMEntry Nat))) "a" 300 301 (CMEntry.mk 5 0)
      (by decide) (by decide)).1 (by decide)
  · exact ((ttlCache_lazy_expiry (V := Nat) (S := Nat)).2.1
      (TTLCacheB.mk 10 [("b", ((0 : Int), (7 : Nat)))])
      "b" 5 0 7 (by decide) (by decide)).2 (by decide)
  · exact ((ttlCache_lazy_expiry (V := Nat) (S := Nat)).2.2
      (TTLCacheA.mk [("c", ((0 : Int), (9 : Nat)))])
      "c" 20 0 9 (by decide)).1 (by decide)

/-- C10: `CacheManager.set_last_events` stores at most 300 events per
fixture: a list longer than 300 is truncated to its last 300 elements,
a shorter list is stored as is, any single stored list has length at
most 300, and after any sequence of `set_last_events` writes from a
fresh manager every `get_last_events` read has length at most 300. -/
theorem cacheManager_lastEvents_capped {V S : Type u} :
    (∀ (cm : CacheManager V S) (fid : Int) (events : List NormEvent),
      300 < events.length →
      (cm.set_last_events fid events).get_last_events fid
        = events.drop (events.length - 300)) ∧
    (∀ (cm : CacheManager V S) (fid : Int) (events : List NormEvent),
      events.length ≤ 300 →
      (cm.set_last_events fid events).get_last_events fid = events) ∧
    (∀ (cm : CacheManager V S) (fid : Int) (events : List NormEvent),
      ((cm.set_last_events fid events).get_last_events fid).length ≤ 300) ∧
    (∀ (writes : List (Int × List NormEvent)) (fid : Int),
      ((runLastEventWrites (CacheManager.init (V := V) (S := S)) writes).get_last_events
        fid).length ≤ 300) := by
  refine ⟨?_, ?_, ?_, ?_⟩
  · intro cm fid events h
    rw [get_last_events_set_self, if_pos h]
  · intro cm fid events h
    rw [get_last_events_set_self, if_neg (by omega : ¬ 300 < events.length)]
  · intro cm fid events
    exact get_last_events_set_length cm fid events
  · intro writes fid
    refine runLastEventWrites_capped writes _ ?_ fid
    intro fid2
    simp [CacheManager.init, CacheManager.get_last_events, lookupKey]

/-- Witness for C10: a 301-event write is truncated to its last 300, a
two-event write is stored as is, and a run of writes stays capped. -/
theorem cacheManager_lastEvents_capped_witness :
    ((CacheManager.init (V := Nat) (S := Nat)).set_last_events 1
        (List.replicate 301 eventA)).get_last_events 1
      = (List.replicate 301 eventA).drop ((List.replicate 301 eventA).length - 300) ∧
    ((CacheManager.init (V := Nat) (S := Nat)).set_last_events 1
        [eventA, eventB]).get_last_events 1 = [eventA, eventB] ∧
    ((runLastEventWrites (CacheManager.init (V := Nat) (S := Nat))
        [(1, List.replicate 301 eventA)]).get_last_events 1).length ≤ 300 :=
  ⟨cacheManager_lastEvents_capped.1 _ 1 _ (by rw [List.length_replicate]; omega),
    cacheManager_lastEvents_capped.2.1 _ 1 _ (by simp),
    cacheManager_lastEvents_capped.2.2.2 [(1, List.replicate 301 eventA)] 1⟩

/-- C2 counterexample: with stored baseline `[A, B]` and fresh records
`[B]` (A disappeared upstream), `diff_new_events` returns `[]` but the
stored baseline afterwards is still `[A, B]`, not `[B]`: the baseline is
not replaced wholesale by the fresh records after every diff. -/
theorem diff_new_events_stale_baseline_counterexample :
    (diff_new_events (CacheManager.mk ([] : List (String × CMEntry Nat))
        [(1, [eventA, eventB])] ([] : List (Int × CMEntry Nat))) 1 [eventB]).1 = [] ∧
    ((diff_new_events (CacheManager.mk ([] : List (String × CMEntry Nat))
        [(1, [eventA, eventB])] ([] : List (Int × CMEntry Nat))) 1
        [eventB]).2).get_last_events 1 = [eventA, eventB] ∧
    [eventA, eventB] ≠ ([eventB] : List NormEvent) := by
  refine ⟨?_, ?_, ?_⟩ <;> decide

/-- C2 amended: the delta of `diff_new_events` consists exactly of the
fresh records whose dedup key is absent from the stored baseline; an
empty delta leaves the store completely untouched (the baseline stays
stale rather than becoming the fresh list), and a non-empty delta makes
the stored baseline the old baseline with the new records appended — an
append, not a wholesale replacement by the fresh records.  The size
hypothesis keeps the 300-event truncation of `set_last_events` out of
the picture. -/
theorem diff_new_events_append_only {V S : Type u}
    (cm : CacheManager V S) (fid : Int) (fresh : List NormEvent)
    (hlen : (cm.get_last_events fid ++ fresh).length ≤ 300) :
    ((diff_new_events cm fid fresh).1 = [] →
      (diff_new_events cm fid fresh).2 = cm) ∧
    ((diff_new_events cm fid fresh).1 ≠ [] →
      ((diff_new_events cm fid fresh).2).get_last_events fid
        = cm.get_last_events fid ++ (diff_new_events cm fid fresh).1) ∧
    (∀ e ∈ (diff_new_events cm fid fresh).1,
      e ∈ fresh ∧ ∀ k, e.key = some k →
        k ∉ (cm.get_last_events fid).filterMap (fun e2 => e2.key)) := by
  have hsnd : (diff_new_events cm fid fresh).2
      = if (diff_new_events cm fid fresh).1.isEmpty then cm
        else cm.set_last_events fid
          (cm.get_last_events fid ++ (diff_new_events cm fid fresh).1) := rfl
  have hfl : (diff_new_events cm fid fresh).1.length ≤ fresh.length :=
    List.length_filter_le _ _
  refine ⟨?_, ?_, ?_⟩
  · intro hempty
    rw [hsnd, hempty]
    simp
  · intro hne
    have h2 : (diff_new_events cm fid fresh).1.isEmpty = false :=
      List.isEmpty_eq_false.mpr hne
    rw [hsnd, if_neg (by rw [h2]; exact Bool.false_ne_true)]
    rw [get_last_events_set_self]
    have hl2 := hlen
    rw [List.length_append] at hl2
    rw [if_neg (by rw [List.length_append]; omega)]
  · intro e he
    obtain ⟨hef, hp⟩ := List.mem_filter.mp he
    refine ⟨hef, ?_⟩
    intro k hk
    rw [hk] at hp
    simpa using hp

/-- Witness for the amended C2 at the specified scenario: stored
baseline `[A, B]`, fresh `[A, B, C]` with pairwise distinct keys. -/
theorem diff_new_events_append_only_witness :
    (((diff_new_events (CacheManager.mk ([] : List (String × CMEntry Nat))
        [(1, [eventA, eventB])] ([] : List (Int × CMEntry Nat))) 1
        [eventA, eventB, eventC]).1 = [] →
      (diff_new_events (CacheManager.mk ([] : List (String × CMEntry Nat))
        [(1, [eventA, eventB])] ([] : List (Int × CMEntry Nat))) 1
        [eventA, eventB, eventC]).2
        = CacheManager.mk ([] : List (String × CMEntry Nat))
            [(1, [eventA, eventB])] ([] : List (Int × CMEntry Nat))) ∧
    ((diff_new_events (CacheManager.mk ([] : List (String × CMEntry Nat))
        [(1, [eventA, eventB])] ([] : List (Int × CMEntry Nat))) 1
        [eventA, eventB, eventC]).1 ≠ [] →
      ((diff_new_events (CacheManager.mk ([] : List (String × CMEntry Nat))
        [(1, [eventA, eventB])] ([] : List (Int × CMEntry Nat))) 1
        [eventA, eventB, eventC]).2).get_last_events 1
        = (CacheManager.mk ([] : List (String × CMEntry Nat))
            [(1, [eventA, eventB])] ([] : List (Int × CMEntry Nat))).get_last_events 1
          ++ (diff_new_events (CacheManager.mk ([] : List (String × CMEntry Nat))
            [(1, [eventA, eventB])] ([] : List (Int × CMEntry Nat))) 1
            [eventA, eventB, eventC]).1) ∧
    (∀ e ∈ (diff_new_events (CacheManager.mk ([] : List (String × CMEntry Nat))
        [(1, [eventA, eventB])] ([] : List (Int × CMEntry Nat))) 1
        [eventA, eventB, eventC]).1,
      e ∈ [eventA, eventB, eventC] ∧ ∀ k, e.key = some k →
        k ∉ ((CacheManager.mk ([] : List (String × CMEntry Nat))
          [(1, [eventA, eventB])] ([] : List (Int × CMEntry Nat))).get_last_events
            1).filterMap (fun e2 => e2.key))) ∧
    (diff_new_events (CacheManager.mk ([] : List (String × CMEntry Nat))
        [(1, [eventA, eventB])] ([] : List (Int × CMEntry Nat))) 1
        [eventA, eventB, eventC]).1 = [eventC] :=
  ⟨diff_new_events_append_only _ 1 [eventA, eventB, eventC] (by decide),
    by decide⟩

/-- C3: the fan-out orchestrator `analyze_complete` is a total function
of the three detector outcomes: each response field depends only on its
own detector run (a raising detector contributes its `except`-path
default and leaves the siblings' successful values intact), and the
response always carries each detector's own elapsed time plus the total
elapsed time. -/
theorem analyze_complete_isolation
    (facesRun : Except String (List FacePrediction)) (faceElapsed : ℚ)
    (jerseysRun : Except String (List JerseyDetection)) (jerseyElapsed : ℚ)
    (timeRun : Except String (Option String)) (timeElapsed : ℚ)
    (totalElapsed : ℚ) :
    (analyze_complete facesRun faceElapsed jerseysRun jerseyElapsed timeRun
        timeElapsed totalElapsed).faces
      = (match facesRun with | .ok f => f | .error _ => []) ∧
    (analyze_complete facesRun faceElapsed jerseysRun jerseyElapsed timeRun
        timeElapsed totalElapsed).numFaces
      = (match facesRun with | .ok f => f.length | .error _ => 0) ∧
    (analyze_complete facesRun faceElapsed jerseysRun jerseyElapsed timeRun
        timeElapsed totalElapsed).jerseys
      = (match jerseysRun with | .ok js => js | .error _ => []) ∧
    (analyze_complete facesRun faceElapsed jerseysRun jerseyElapsed timeRun
        timeElapsed totalElapsed).colombiaCount
      = (match jerseysRun with
          | .ok js => (js.filter (fun j => j.team = "Colombia")).length
          | .error _ => 0) ∧
    (analyze_complete facesRun faceElapsed jerseysRun jerseyElapsed timeRun
        timeElapsed totalElapsed).matchTime
      = (match timeRun with | .ok t => t | .error _ => none) ∧
    (analyze_complete facesRun faceElapsed jerseysRun jerseyElapsed timeRun
        timeElapsed totalElapsed).processingTimes
      = ⟨totalElapsed, faceElapsed, jerseyElapsed, timeElapsed⟩ ∧
    (analyze_complete facesRun faceElapsed jerseysRun jerseyElapsed timeRun
        timeElapsed totalElapsed).imageProcessed = true := by
  cases facesRun <;> cases jerseysRun <;> cases timeRun <;>
    exact ⟨rfl, rfl, rfl, rfl, rfl, rfl, rfl⟩

/-- C4: `/analyze` slot discipline.  With no free slot the caller gets an
immediate `429 Busy` with no acquire and no state change; with a free
slot, exactly one acquire and exactly one release happen for every work
outcome (success, request timeout, raised work), the semaphore returning
to its initial count; releases always equal acquires; and with capacity
1 the first probe succeeds while a second probe before release reports
busy. -/
theorem analyze_slot_discipline {α : Type u} (s : SlotState) (w : WorkResult α) :
    (s.free = 0 →
      analyze true s w = (s, AnalyzeResponse.busy429, 0, 0)) ∧
    (0 < s.free →
      (analyze true s w).2.2.1 = 1 ∧
      (analyze true s w).2.2.2 = 1 ∧
      (analyze true s w).1 = s) ∧
    (analyze true s w).2.2.2 = (analyze true s w).2.2.1 ∧
    try_acquire ⟨1⟩ = some ⟨0⟩ ∧
    try_acquire ⟨0⟩ = none := by
  obtain ⟨free⟩ := s
  cases free with
  | zero =>
    refine ⟨fun _ => ?_, fun h => absurd h (by simp), ?_, rfl, rfl⟩
    · cases w <;> rfl
    · cases w <;> rfl
  | succ n =>
    refine ⟨fun h => absurd h (by simp), fun _ => ?_, ?_, rfl, rfl⟩
    · cases w <;> exact ⟨rfl, rfl, rfl⟩
    · cases w <;> rfl

/-- Witness for C4: a saturated semaphore yields an immediate busy
response, and a raised work item on a 2-slot semaphore still balances
acquire and release, restoring both free slots. -/
theorem analyze_slot_discipline_witness :
    analyze true ⟨0⟩ (WorkResult.timeout : WorkResult Nat)
      = (⟨0⟩, AnalyzeResponse.busy429, 0, 0) ∧
    ((analyze true ⟨2⟩ (WorkResult.exc "boom" : WorkResult Nat)).2.2.1 = 1 ∧
      (analyze true ⟨2⟩ (WorkResult.exc "boom" : WorkResult Nat)).2.2.2 = 1 ∧
      (analyze true ⟨2⟩ (WorkResult.exc "boom" : WorkResult Nat)).1 = ⟨2⟩) :=
  ⟨(analyze_slot_discipline ⟨0⟩ (WorkResult.timeout : WorkResult Nat)).1 rfl,
    (analyze_slot_discipline ⟨2⟩ (WorkResult.exc "boom" : WorkResult Nat)).2.1
      (by decide)⟩

theorem stream_tick_eventType (fid : Int) (st : StreamState)
    (inp : Except String TickData) :
    ∀ f ∈ (stream_tick fid st inp).1,
      f.eventType = "events" ∨ f.eventType = "status" ∨ f.eventType = "error" := by
  cases inp with
  | error msg =>
    intro f hf
    simp only [stream_tick, List.mem_singleton] at hf
    rw [hf]
    right; right; rfl
  | ok d =>
    intro f hf
    simp only [stream_tick] at hf
    split at hf
    · simp only [List.mem_singleton] at hf
      rw [hf]
      by_cases hn : (get_new_events st.baseline d.events).isEmpty
      · simp [hn]
      · simp [hn]
    · simp at hf

theorem run_ticks_eventType (fid : Int) (ticks : List (Except String TickData)) :
    ∀ (st : StreamState), ∀ f ∈ (run_ticks fid st ticks).1,
      f.eventType = "events" ∨ f.eventType = "status" ∨ f.eventType = "error" := by
  induction ticks with
  | nil => intro st f hf; simp [run_ticks] at hf
  | cons inp rest ih =>
    intro st f hf
    simp only [run_ticks, List.mem_append] at hf
    rcases hf with hf | hf
    · exact stream_tick_eventType fid st inp f hf
    · exact ih _ f hf

theorem run_ticks_no_ready (fid : Int) (ticks : List (Except String TickData)) :
    ∀ (st : StreamState), ∀ f ∈ (run_ticks fid st ticks).1, f.eventType ≠ "ready" := by
  intro st f hf
  rcases run_ticks_eventType fid ticks st f hf with h | h | h <;> (rw [h]; decide)

theorem run_ticks_append (fid : Int) (l₁ l₂ : List (Except String TickData)) :
    ∀ st : StreamState,
      run_ticks fid st (l₁ ++ l₂)
        = ((run_ticks fid st l₁).1 ++ (run_ticks fid (run_ticks fid st l₁).2 l₂).1,
           (run_ticks fid (run_ticks fid st l₁).2 l₂).2) := by
  induction l₁ with
  | nil => intro st; simp [run_ticks]
  | cons inp rest ih =>
    intro st
    simp only [List.cons_append, run_ticks, List.append_eq, ih, List.append_assoc]

/-- C6: for every subscription run (any stored baseline, bootstrap
outcome, initial status and tick sequence) the stream emits the `ready`
frame first, and no later frame — delta, status or error — has kind
`ready`: exactly one `ready`, before everything else. -/
theorem stream_ready_first_and_unique (fid : Int) (stored : List NormEvent)
    (bootstrap : Except String (List RawEvent)) (initialStatus : MatchStatus)
    (ticks : List (Except String TickData)) :
    ∃ rest, (stream_match_events fid stored bootstrap initialStatus ticks).1
        = SSEFrame.mk "ready" (SSEData.ready fid "listening" initialStatus) :: rest ∧
      (∀ f ∈ rest, f.eventType ≠ "ready") ∧
      ((stream_match_events fid stored bootstrap initialStatus ticks).1.filter
        (fun f => f.eventType == "ready")).length = 1 := by
  refine ⟨(run_ticks fid ⟨initialize_baseline stored bootstrap, some initialStatus⟩
    ticks).1, rfl, run_ticks_no_ready fid ticks _, ?_⟩
  have hnr := run_ticks_no_ready fid ticks
    ⟨initialize_baseline stored bootstrap, some initialStatus⟩
  simp only [stream_match_events, List.filter_cons]
  rw [if_pos (by rfl)]
  have hrest : List.filter (fun f => f.eventType == "ready")
      (run_ticks fid ⟨initialize_baseline stored bootstrap, some initialStatus⟩
        ticks).1 = [] := by
    rw [List.filter_eq_nil_iff]
    intro f hf
    have h := hnr f hf
    simpa using h
  rw [hrest]
  rfl

/-- C7: an upstream exception during a poll tick is contained: the
erroring tick contributes exactly one `error` frame, leaves the
loop-carried state untouched, and the loop goes on to process the
remaining ticks exactly as it would have from that state. -/
theorem stream_error_containment (fid : Int) (st : StreamState) (msg : String)
    (pre post : List (Except String TickData)) :
    stream_tick fid st (Except.error msg)
        = ([SSEFrame.mk "error" (SSEData.error msg)], st) ∧
    (run_ticks fid st (pre ++ Except.error msg :: post)).1
        = (run_ticks fid st pre).1 ++ SSEFrame.mk "error" (SSEData.error msg)
            :: (run_ticks fid (run_ticks fid st pre).2 post).1 ∧
    (run_ticks fid st (pre ++ Except.error msg :: post)).2
        = (run_ticks fid (run_ticks fid st pre).2 post).2 := by
  refine ⟨rfl, ?_, ?_⟩
  · rw [run_ticks_append]
    simp [run_ticks, stream_tick]
  · rw [run_ticks_append]
    simp [run_ticks, stream_tick]

/-- C9 counterexample: a run in which one new event arrives emits the
frame kinds `ready` then `events` — the delta kind actually on the wire
is `events` (and pure status changes use `status`), not `delta`, so the
kind set claimed (`ready`, `delta`, `error`) is wrong. -/
theorem stream_kind_delta_counterexample :
    ((stream_match_events 1 [] (Except.error "boot") statusFH
        [Except.ok ⟨statusFH, [eventA], fun _ => 0⟩]).1.map
      (fun f => f.eventType)) = ["ready", "events"] ∧
    ("events" : String) ∉ (["ready", "delta", "error"] : List String) := by
  constructor
  · rfl
  · decide

/-- C9 amended: every frame emitted by the stream has kind `ready`,
`events`, `status` or `error`, and its wire text is exactly the SSE text
frame built by `_format_sse_event` from that kind and the serialized
payload: the kind line, the data line, and a blank line. -/
theorem stream_wire_format (serialize : SSEData → String) (fid : Int)
    (stored : List NormEvent) (bootstrap : Except String (List RawEvent))
    (initialStatus : MatchStatus) (ticks : List (Except String TickData)) :
    ∀ f ∈ (stream_match_events fid stored bootstrap initialStatus ticks).1,
      (f.eventType = "ready" ∨ f.eventType = "events" ∨ f.eventType = "status"
        ∨ f.eventType = "error") ∧
      wire_frame serialize f
        = "event: " ++ f.eventType ++ "\ndata: " ++ serialize f.data ++ "\n\n" := by
  intro f hf
  refine ⟨?_, rfl⟩
  simp only [stream_match_events, List.mem_cons] at hf
  rcases hf with hf | hf
  · rw [hf]
    left; rfl
  · rcases run_ticks_eventType fid ticks _ f hf with h | h | h
    · right; left; exact h
    · right; right; left; exact h
    · right; right; right; exact h

/-- Witness for the amended C9: the `ready` frame of a concrete run has
an allowed kind and the expected wire text under a concrete serializer. -/
theorem stream_wire_format_witness :
    ((SSEFrame.mk "ready" (SSEData.ready 1 "listening" statusFH)).eventType = "ready"
      ∨ (SSEFrame.mk "ready" (SSEData.ready 1 "listening" statusFH)).eventType = "events"
      ∨ (SSEFrame.mk "ready" (SSEData.ready 1 "listening" statusFH)).eventType = "status"
      ∨ (SSEFrame.mk "ready" (SSEData.ready 1 "listening" statusFH)).eventType = "error") ∧
    wire_frame (fun _ => "payload")
        (SSEFrame.mk "ready" (SSEData.ready 1 "listening" statusFH))
      = "event: " ++ (SSEFrame.mk "ready"
          (SSEData.ready 1 "listening" statusFH)).eventType
        ++ "\ndata: "
        ++ (fun (_ : SSEData) => "payload")
            (SSEFrame.mk "ready" (SSEData.ready 1 "listening" statusFH)).data
        ++ "\n\n" :=
  stream_wire_format (fun _ => "payload") 1 [] (Except.error "boot") statusFH []
    (SSEFrame.mk "ready" (SSEData.ready 1 "listening" statusFH))
    (by simp [stream_match_events, run_ticks])

/-- Witness for C6 at a concrete run with one delta-producing tick. -/
theorem stream_ready_first_and_unique_witness :
    ∃ rest, (stream_match_events 1 [] (Except.error "boot") statusFH
        [Except.ok ⟨statusFH, [eventA], fun _ => 0⟩]).1
        = SSEFrame.mk "ready" (SSEData.ready 1 "listening" statusFH) :: rest ∧
      (∀ f ∈ rest, f.eventType ≠ "ready") ∧
      ((stream_match_events 1 [] (Except.error "boot") statusFH
        [Except.ok ⟨statusFH, [eventA], fun _ => 0⟩]).1.filter
        (fun f => f.eventType == "ready")).length = 1 :=
  stream_ready_first_and_unique 1 [] (Except.error "boot") statusFH
    [Except.ok ⟨statusFH, [eventA], fun _ => 0⟩]

end DemoSports
